import Mathlib

/- A shallow embedding of the infix-expression evaluator of the repository
   (parse-math-expr.c and parse of compute-math-expr.c).  The C type double is
   idealized as the exact rational type, so the arithmetic of every verified
   run is the exact value the C code approximates in binary floating point.
   The input stream is a list of characters; getchar on an exhausted stream
   (EOF in C) is modelled by a NUL sentinel character which, exactly like the
   EOF value, matches no case of the parser and therefore surfaces as a
   syntax error.  Statuses are the C status characters themselves:
   's' syntax error, 'o' opening parenthesis, 'c' closing parenthesis,
   'n' end of expression, '>' continue with a full window. -/

namespace Cmm

/-- The sliding window: the three operand slots, the three operator slots and
the cursor window_at, mirroring the locals of calculate
(compute-math-expr.c:28-30).  Field oi is operands[i], field pi is
operators[i]. -/
structure WState where
  o0 : ℚ
  o1 : ℚ
  o2 : ℚ
  p0 : Char
  p1 : Char
  p2 : Char
  window_at : ℕ
deriving DecidableEq, Repr

/-- The initial window of calculate (compute-math-expr.c:28-30): cursor 0,
all operands 0, all operators the default '+'. -/
def initW : WState := ⟨0, 0, 0, '+', '+', '+', 0⟩

/-- Write operands[i] := v.  The C code only ever indexes slots 0..2; the
out-of-range branch is unreachable in every modelled run. -/
def WState.setOpnd (w : WState) (i : ℕ) (v : ℚ) : WState :=
  if i = 0 then { w with o0 := v }
  else if i = 1 then { w with o1 := v }
  else if i = 2 then { w with o2 := v }
  else w

/-- Write operators[i] := c.  Same indexing remark as for setOpnd. -/
def WState.setOptr (w : WState) (i : ℕ) (c : Char) : WState :=
  if i = 0 then { w with p0 := c }
  else if i = 1 then { w with p1 := c }
  else if i = 2 then { w with p2 := c }
  else w

/-- Read operators[i], used where the C indexes by the precedence index. -/
def WState.optr (w : WState) (i : ℕ) : Char :=
  if i = 0 then w.p0 else if i = 1 then w.p1 else w.p2

/-- The statement *window_at += 1 of parse-math-expr.c:137. -/
def WState.incAt (w : WState) : WState := { w with window_at := w.window_at + 1 }

/-- getchar on the modelled stream; the empty stream yields the NUL
sentinel standing for EOF. -/
def getchar : List Char → Char × List Char
  | [] => ('\x00', [])
  | c :: rest => (c, rest)

/-- The test c >= '0' && c <= '9' used throughout parse-math-expr.c
(48 and 57 are the codes of '0' and '9'). -/
def isDigitC (c : Char) : Bool := 48 ≤ c.toNat && c.toNat ≤ 57

/-- The digit value c - '0'. -/
def digitVal (c : Char) : ℕ := c.toNat - 48

/-- The operand accumulation loop of parse_operand (parse-math-expr.c:57-74).
Arguments are the hasFractionalPart flag, the exponent counter, the operand
accumulated so far, and the stream.  It returns the terminating character
(none encodes the two-dots syntax error, where the C returns 's' before the
sign is applied), the accumulated operand, and the rest of the stream.  The
empty-stream row folds in the EOF sentinel, which is neither a digit nor a
dot and so terminates the loop. -/
def parse_digits : Bool → ℕ → ℚ → List Char → Option Char × ℚ × List Char
  | _, _, v, [] => (some '\x00', v, [])
  | hasFrac, expo, v, c :: rest =>
    if isDigitC c then
      if hasFrac then
        parse_digits hasFrac (expo + 1) (v + (digitVal c : ℚ) / 10 ^ (expo + 1)) rest
      else
        parse_digits hasFrac expo (v * 10 + (digitVal c : ℚ)) rest
    else if c = '.' then
      if hasFrac then (none, v, rest)
      else parse_digits true expo v rest
    else (some c, v, rest)

/-- The tail of parse_operand after the first-character dispatch: run the
accumulation loop, then apply the sign on normal exit (parse-math-expr.c:75);
on the two-dots error the C returns 's' without applying the sign. -/
def finishOperand (sign : ℚ) (hasFrac : Bool) (v0 : ℚ) (input : List Char) :
    Char × ℚ × List Char :=
  match parse_digits hasFrac 0 v0 input with
  | (none, v, rest) => ('s', v, rest)
  | (some t, v, rest) => (t, v * sign, rest)

/-- parse_operand (parse-math-expr.c:32-77).  Takes the character already
read by the caller and the rest of the stream; returns the status or
terminating character, the value written into the operand slot (the C zeroes
the slot before dispatching, so the early returns leave it 0), and the rest
of the stream. -/
def parse_operand (c : Char) (input : List Char) : Char × ℚ × List Char :=
  if c = '-' then finishOperand (-1) false 0 input
  else if c = '+' then finishOperand 1 false 0 input
  else if isDigitC c then finishOperand 1 false (digitVal c : ℚ) input
  else if c = '.' then finishOperand 1 true 0 input
  else if c = '*' ∨ c = '/' then ('s', 0, input)
  else if c = '(' then ('o', 0, input)
  else (c, 0, input)

/-- The two lines c = getchar(); c = parse_operand(c, &operands[i]) of
parse_expr (parse-math-expr.c:100-101). -/
def lexOperand (input : List Char) : Char × ℚ × List Char :=
  parse_operand (getchar input).1 (getchar input).2

/-- The whitespace-discarding loop of parse_expr (parse-math-expr.c:106-107),
from the second character on. -/
def skipWsAux : List Char → Char × List Char
  | [] => ('\x00', [])
  | c :: rest => if c = ' ' ∨ c = '\t' then skipWsAux rest else (c, rest)

/-- The whitespace-discarding loop of parse_expr, starting from the
character returned by parse_operand. -/
def skipWs (c : Char) (input : List Char) : Char × List Char :=
  if c = ' ' ∨ c = '\t' then skipWsAux input else (c, input)

/-- The body of the while loop of parse_expr (parse-math-expr.c:99-138).
The loop runs while window_at < 3 and every full pass increments window_at,
so it is driven here by the countdown 3 - window_at, computed at the entry
point parse_expr; the zero row is the loop exit returning the continue
status '>'. -/
def parse_expr_go : ℕ → WState → List Char → Char × WState × List Char
  | 0, w, input => ('>', w, input)
  | k + 1, w, input =>
    match lexOperand input with
    | (t, v, in1) =>
      let w1 := w.setOpnd w.window_at v
      if t = 's' then ('s', w1, in1)
      else
        match skipWs t in1 with
        | (c, in2) =>
          if c = '^' ∨ c = '+' ∨ c = '-' ∨ c = '*' ∨ c = '/' then
            parse_expr_go k ((w1.setOptr w.window_at c).incAt) in2
          else if c = '(' then ('o', w1.setOptr w.window_at '(', in2)
          else if c = 'o' then ('o', w1, in2)
          else if c = ')' then ('c', w1, in2)
          else if c = '\n' then ('n', w1, in2)
          else ('s', w1, in2)

/-- parse_expr (parse-math-expr.c:94-140): status, updated window, rest of
the stream. -/
def parse_expr (w : WState) (input : List Char) : Char × WState × List Char :=
  parse_expr_go (3 - w.window_at) w input

/-- contains_nest_op (compute-math-expr.c:68-73). -/
def contains_nest_op (w : WState) : Bool :=
  w.p0 = '(' || w.p1 = '(' || w.p2 = '('

/-- highest_order_op (compute-math-expr.c:87-98).  Note that the slot-1 test
for the power operator comes first, before the slot-0 test. -/
def highest_order_op (w : WState) : ℕ :=
  if w.p1 = '^' then 1
  else if w.p0 = '^' then 0
  else if w.p0 = '*' ∨ w.p0 = '/' then 0
  else if w.p1 = '*' ∨ w.p1 = '/' then 1
  else 0

/-- The C library pow on doubles, idealized to exact arithmetic: an integer
exponent gives the exact integer power (with 0 to a negative power collapsed
to 0, as rational inversion of 0 is 0); a non-integer exponent, whose real
value is irrational in general and which no verified claim exercises, is
mapped to 0. -/
def qpow (a b : ℚ) : ℚ := if b.den = 1 then a ^ b.num else 0

/-- arithmetic_op (compute-math-expr.c:114-136).  The result pointer aliases
an operand slot, so the function takes the current value r of that slot and
returns its new value; the default case only prints, leaving r unchanged. -/
def arithmetic_op (op : Char) (a b r : ℚ) : ℚ :=
  if op = '+' then a + b
  else if op = '-' then a - b
  else if op = '*' then a * b
  else if op = '/' then a / b
  else if op = '^' then qpow a b
  else r

/-- shift_window (compute-math-expr.c:151-176).  The default mode only
prints; the two trailing resets operands[2] := 0 and operators[2] := '+'
run after the switch in every mode. -/
def shift_window (mode : ℕ) (w : WState) : WState :=
  let w1 :=
    if mode = 1 then { w with o1 := 0, p0 := w.p2, p1 := '+', window_at := 1 }
    else if mode = 2 then
      { w with o1 := w.o2, p0 := w.p1, p1 := w.p2, window_at := 2 }
    else if mode = 3 then { w with p1 := w.p2, window_at := 2 }
    else w
  { w1 with o2 := 0, p2 := '+' }

/-- compute (compute-math-expr.c:190-230).  The in-place updates through the
aliasing result pointer are sequenced exactly as in the C code. -/
def compute (w : WState) : WState :=
  let pid := highest_order_op w
  if w.p2 = '+' ∨ w.p2 = '-' then
    if pid = 0 then
      let wA := { w with o0 := arithmetic_op (w.optr pid) w.o0 w.o1 w.o0 }
      let wB := { wA with o0 := arithmetic_op wA.p1 wA.o0 wA.o2 wA.o0 }
      shift_window 1 wB
    else if pid = 1 then
      let wA := { w with o1 := arithmetic_op (w.optr pid) w.o1 w.o2 w.o1 }
      let wB := { wA with o0 := arithmetic_op wA.p0 wA.o0 wA.o1 wA.o0 }
      shift_window 2 wB
    else w
  else if w.p2 = '*' ∨ w.p2 = '/' ∨ w.p2 = '^' then
    if pid = 0 ∧ (w.p0 = '*' ∨ w.p0 = '/') then
      let wA := { w with o0 := arithmetic_op (w.optr pid) w.o0 w.o1 w.o0 }
      if wA.p1 = '*' ∨ wA.p1 = '/' then
        let wB := { wA with o0 := arithmetic_op wA.p1 wA.o0 wA.o2 wA.o0 }
        shift_window 1 wB
      else shift_window 2 wA
    else if pid = 1 ∧ (w.p1 = '*' ∨ w.p1 = '/' ∨ w.p1 = '^') then
      let wA := { w with o1 := arithmetic_op (w.optr pid) w.o1 w.o2 w.o1 }
      shift_window 3 wA
    else
      let wA := { w with o0 := arithmetic_op (w.optr pid) w.o0 w.o1 w.o0 }
      shift_window 2 wA
  else w

/-- The do-while loop of calculate (compute-math-expr.c:36-64).  The fuel
argument bounds the number of loop passes and the recursion depth; the C
loop always terminates on a finite stream, and fuel exhaustion is reported
with the sentinel status 'f', which no C path produces and which no proved
run reaches.  The result triple is (operands[0], status, rest of stream).
The test of the status against the newline character at
compute-math-expr.c:60 is kept exactly as written, although the end status
is the letter 'n', so the test can never succeed. -/
def calcLoop : ℕ → WState → List Char → ℚ × Char × List Char
  | 0, w, input => (w.o0, 'f', input)
  | n + 1, w, input =>
    match parse_expr w input with
    | (st, w1, in1) =>
      if st = '>' then calcLoop n (compute w1) in1
      else if st = 'n' ∨ st = 'c' then ((compute w1).o0, st, in1)
      else if st = 'o' then
        match
          (if contains_nest_op w1 then
            let w2 := w1.setOptr w1.window_at '*'
            if w1.window_at < 2 then
              match calcLoop n initW in1 with
              | (v, st2, in2) => (w2.setOpnd (w1.window_at + 1) v, st2, in2)
            else
              let w3 := compute w2
              match calcLoop n initW in1 with
              | (v, st2, in2) => (w3.setOpnd w3.window_at v, st2, in2)
          else
            match calcLoop n initW in1 with
            | (v, st2, in2) => (w1.setOpnd w1.window_at v, st2, in2)) with
        | (w4, st2, in2) =>
          let w5 := compute w4
          if st2 = '\n' then (w5.o0, st2, in2)
          else if st2 = 's' then (w5.o0, 's', in2)
          else calcLoop n w5 in2
      else (w1.o0, st, in1)

/-- calculate (compute-math-expr.c:26-66) on a modelled stream: fresh
window, then the do-while loop. -/
def calculate (n : ℕ) (input : List Char) : ℚ × Char × List Char :=
  calcLoop n initW input

/-- A well-formed (sub)expression of the language, characterized by the
behaviour the evaluator gives it: within fuel n, run against a closing
parenthesis and any continuation it consumes exactly itself and the
parenthesis and yields v with the close status. -/
def EvalsTo (n : ℕ) (E : List Char) (v : ℚ) : Prop :=
  ∀ tail, calculate n (E ++ ')' :: tail) = (v, 'c', tail)

/-- An operand literal of the grammar
operand := sign? (digit+ (dot digit*)? | dot digit+), with sign none,
plus (some false) or minus (some true), decimal digits as numbers. -/
structure Lit where
  neg : Option Bool
  ints : List ℕ
  hasDot : Bool
  fracs : List ℕ

/-- The character rendering of an operand literal. -/
def Lit.render (L : Lit) : List Char :=
  (match L.neg with
   | none => []
   | some false => ['+']
   | some true => ['-']) ++
  L.ints.map Nat.digitChar ++
  (if L.hasDot then '.' :: L.fracs.map Nat.digitChar else [])

/-- Well-formedness of an operand literal: digits are decimal, the
fractional digits exist only behind a dot, and the literal has at least one
digit. -/
def Lit.WF (L : Lit) : Prop :=
  (∀ d ∈ L.ints, d < 10) ∧ (∀ d ∈ L.fracs, d < 10) ∧
  (L.hasDot = false → L.fracs = []) ∧
  (L.ints ≠ [] ∨ (L.hasDot = true ∧ L.fracs ≠ []))

/-- The value of a string of integer-part digits. -/
def intVal (ds : List ℕ) : ℚ := ds.foldl (fun a d => a * 10 + (d : ℚ)) 0

/-- Adding fractional digits at successive negative powers of ten to an
accumulated value, the exponent incremented before use exactly as in
parse-math-expr.c:63. -/
def fracFold : ℕ → ℚ → List ℕ → ℚ
  | _, v, [] => v
  | expo, v, d :: ds => fracFold (expo + 1) (v + (d : ℚ) / 10 ^ (expo + 1)) ds

/-- The sign factor of a literal. -/
def Lit.sgnFactor (L : Lit) : ℚ := if L.neg = some true then -1 else 1

/-- The decimal value denoted by a well-formed operand literal. -/
def Lit.val (L : Lit) : ℚ :=
  fracFold 0 (intVal L.ints) L.fracs * L.sgnFactor

/-- Streams made of expression whitespace only (space and horizontal tab). -/
def wsOnly (ws : List Char) : Prop := ∀ c ∈ ws, c = ' ' ∨ c = '\t'

theorem window_at_setOpnd (w : WState) (i : ℕ) (v : ℚ) :
    (w.setOpnd i v).window_at = w.window_at := by
  unfold WState.setOpnd; split_ifs <;> rfl

theorem window_at_setOptr (w : WState) (i : ℕ) (c : Char) :
    (w.setOptr i c).window_at = w.window_at := by
  unfold WState.setOptr; split_ifs <;> rfl

theorem isDigitC_digitChar {d : ℕ} (h : d < 10) :
    isDigitC (Nat.digitChar d) = true := by
  interval_cases d <;> decide

theorem digitVal_digitChar {d : ℕ} (h : d < 10) :
    digitVal (Nat.digitChar d) = d := by
  interval_cases d <;> decide

theorem digitChar_ne_dash {d : ℕ} (h : d < 10) : Nat.digitChar d ≠ '-' := by
  interval_cases d <;> decide

theorem digitChar_ne_plus {d : ℕ} (h : d < 10) : Nat.digitChar d ≠ '+' := by
  interval_cases d <;> decide

theorem parse_digits_ints (ds : List ℕ) (hds : ∀ d ∈ ds, d < 10) (expo : ℕ)
    (v : ℚ) (rest : List Char) :
    parse_digits false expo v (ds.map Nat.digitChar ++ rest) =
      parse_digits false expo (ds.foldl (fun a d => a * 10 + (d : ℚ)) v) rest := by
  induction ds generalizing v with
  | nil => simp
  | cons d ds ih =>
    have hd : d < 10 := hds d (by simp)
    have htl : ∀ x ∈ ds, x < 10 := fun x hx => hds x (by simp [hx])
    simp only [List.map_cons, List.cons_append, List.foldl_cons]
    rw [parse_digits, isDigitC_digitChar hd]
    simp only [if_true, Bool.false_eq_true, if_false, digitVal_digitChar hd]
    exact ih htl (v * 10 + (d : ℚ))

theorem parse_digits_fracs (ds : List ℕ) (hds : ∀ d ∈ ds, d < 10) (expo : ℕ)
    (v : ℚ) (rest : List Char) :
    parse_digits true expo v (ds.map Nat.digitChar ++ rest) =
      parse_digits true (expo + ds.length) (fracFold expo v ds) rest := by
  induction ds generalizing expo v with
  | nil => simp [fracFold]
  | cons d ds ih =>
    have hd : d < 10 := hds d (by simp)
    have htl : ∀ x ∈ ds, x < 10 := fun x hx => hds x (by simp [hx])
    simp only [List.map_cons, List.cons_append, List.length_cons]
    rw [parse_digits, isDigitC_digitChar hd]
    simp only [if_true, digitVal_digitChar hd]
    rw [ih htl (expo + 1)]
    have harith : expo + 1 + ds.length = expo + (ds.length + 1) := by omega
    rw [harith]
    rfl

theorem parse_digits_term (t : Char) (h1 : isDigitC t = false) (h2 : t ≠ '.')
    (hf : Bool) (expo : ℕ) (v : ℚ) (rest : List Char) :
    parse_digits hf expo v (t :: rest) = (some t, v, rest) := by
  rw [parse_digits, h1]
  simp [h2]

theorem parse_digits_dot (expo : ℕ) (v : ℚ) (rest : List Char) :
    parse_digits false expo v ('.' :: rest) = parse_digits true expo v rest := rfl

theorem parse_digits_run (ints2 : List ℕ) (h2 : ∀ d ∈ ints2, d < 10)
    (hasDot : Bool) (fracs : List ℕ) (hfr : ∀ d ∈ fracs, d < 10)
    (hdot : hasDot = false → fracs = []) (t : Char) (ht1 : isDigitC t = false)
    (ht2 : t ≠ '.') (v0 : ℚ) (rest : List Char) :
    parse_digits false 0 v0 (ints2.map Nat.digitChar ++
        ((if hasDot then '.' :: fracs.map Nat.digitChar else []) ++ t :: rest)) =
      (some t, fracFold 0 (ints2.foldl (fun a d => a * 10 + (d : ℚ)) v0) fracs,
        rest) := by
  rw [parse_digits_ints ints2 h2]
  cases hasDot with
  | false =>
    rw [hdot rfl]
    simp only [if_false, List.nil_append, Bool.false_eq_true]
    rw [parse_digits_term t ht1 ht2]
    rfl
  | true =>
    simp only [if_true, List.cons_append]
    rw [parse_digits_dot, parse_digits_fracs fracs hfr,
      parse_digits_term t ht1 ht2]

theorem lexOperand_cons (c : Char) (s : List Char) :
    lexOperand (c :: s) = parse_operand c s := rfl

theorem parse_operand_dot (input : List Char) :
    parse_operand '.' input = finishOperand 1 true 0 input := rfl

theorem parse_operand_plus (input : List Char) :
    parse_operand '+' input = finishOperand 1 false 0 input := rfl

theorem parse_operand_dash (input : List Char) :
    parse_operand '-' input = finishOperand (-1) false 0 input := rfl

theorem parse_operand_digit {d : ℕ} (h : d < 10) (input : List Char) :
    parse_operand (Nat.digitChar d) input = finishOperand 1 false (d : ℚ) input := by
  interval_cases d <;> rfl

theorem lexOperand_lit (L : Lit) (hL : L.WF) (t : Char)
    (ht1 : isDigitC t = false) (ht2 : t ≠ '.') (rest : List Char) :
    lexOperand (L.render ++ t :: rest) = (t, L.val, rest) := by
  obtain ⟨hi, hf, hdot, hne⟩ := hL
  obtain ⟨neg, ints, hasDot, fracs⟩ := L
  cases neg with
  | none =>
    cases ints with
    | nil =>
      rcases hne with h | ⟨hd, hfr⟩
      · exact absurd rfl h
      · subst hd
        simp only [Lit.render, List.map_nil, List.nil_append, if_true,
          List.cons_append]
        rw [lexOperand_cons, parse_operand_dot]
        unfold finishOperand
        rw [parse_digits_fracs fracs hf, parse_digits_term t ht1 ht2]
        simp [Lit.val, Lit.sgnFactor, intVal]
    | cons d ds =>
      have hd : d < 10 := hi d (by simp)
      have htl : ∀ x ∈ ds, x < 10 := fun x hx => hi x (by simp [hx])
      simp only [Lit.render, List.map_cons, List.nil_append, List.cons_append,
        List.append_assoc]
      rw [lexOperand_cons, parse_operand_digit hd]
      unfold finishOperand
      rw [parse_digits_run ds htl hasDot fracs hf hdot t ht1 ht2]
      simp [Lit.val, Lit.sgnFactor, intVal]
  | some b =>
    cases b with
    | false =>
      simp only [Lit.render, List.cons_append, List.nil_append,
        List.append_assoc]
      rw [lexOperand_cons, parse_operand_plus]
      unfold finishOperand
      rw [parse_digits_run ints hi hasDot fracs hf hdot t ht1 ht2]
      simp [Lit.val, Lit.sgnFactor, intVal]
    | true =>
      simp only [Lit.render, List.cons_append, List.nil_append,
        List.append_assoc]
      rw [lexOperand_cons, parse_operand_dash]
      unfold finishOperand
      rw [parse_digits_run ints hi hasDot fracs hf hdot t ht1 ht2]
      simp [Lit.val, Lit.sgnFactor, intVal]

theorem skipWsAux_run (ws : List Char) (hws : wsOnly ws) (t : Char)
    (ht : ¬(t = ' ' ∨ t = '\t')) (rest : List Char) :
    skipWsAux (ws ++ t :: rest) = (t, rest) := by
  induction ws with
  | nil => simp [skipWsAux, ht]
  | cons c cs ih =>
    have hc : c = ' ' ∨ c = '\t' := hws c (by simp)
    have hcs : wsOnly cs := fun x hx => hws x (by simp [hx])
    simp only [List.cons_append, skipWsAux, if_pos hc]
    exact ih hcs

/-- One full pass of the parse_expr loop across a literal, optional trailing
whitespace, and an operator: the operand and operator are stored and the
cursor advances.  The whitespace may only sit between the end of the operand
and the operator, the single position where parse_expr discards it. -/
theorem parse_expr_step_op (w : WState) (hw : w.window_at < 3) (L : Lit)
    (hL : L.WF) (ws : List Char) (hws : wsOnly ws) (op : Char)
    (hop : op = '^' ∨ op = '+' ∨ op = '-' ∨ op = '*' ∨ op = '/')
    (rest : List Char) :
    parse_expr w (L.render ++ (ws ++ op :: rest)) =
      parse_expr (((w.setOpnd w.window_at L.val).setOptr w.window_at op).incAt)
        rest := by
  have hop1 : isDigitC op = false := by rcases hop with rfl | rfl | rfl | rfl | rfl <;> decide
  have hop2 : op ≠ '.' := by rcases hop with rfl | rfl | rfl | rfl | rfl <;> decide
  have hopws : ¬(op = ' ' ∨ op = '\t') := by
    rcases hop with rfl | rfl | rfl | rfl | rfl <;> decide
  obtain ⟨k, hk⟩ : ∃ k, 3 - w.window_at = k + 1 := ⟨3 - w.window_at - 1, by omega⟩
  have hk2 : 3 - (((w.setOpnd w.window_at L.val).setOptr w.window_at op).incAt).window_at = k := by
    simp only [WState.incAt, window_at_setOptr, window_at_setOpnd]
    omega
  cases ws with
  | nil =>
    have hops : op ≠ 's' := by rcases hop with rfl | rfl | rfl | rfl | rfl <;> decide
    simp only [parse_expr, hk, hk2, List.nil_append, parse_expr_go]
    rw [lexOperand_lit L hL op hop1 hop2 rest]
    simp only [if_neg hops, skipWs, if_neg hopws, if_pos hop]
  | cons wc wcs =>
    have hwc : wc = ' ' ∨ wc = '\t' := hws wc (by simp)
    have hwcs : wsOnly wcs := fun x hx => hws x (by simp [hx])
    have hwc1 : isDigitC wc = false := by rcases hwc with rfl | rfl <;> decide
    have hwc2 : wc ≠ '.' := by rcases hwc with rfl | rfl <;> decide
    have hwcns : wc ≠ 's' := by rcases hwc with rfl | rfl <;> decide
    simp only [parse_expr, hk, hk2, List.cons_append, parse_expr_go]
    rw [lexOperand_lit L hL wc hwc1 hwc2 (wcs ++ op :: rest)]
    simp only [if_neg hwcns]
    rw [skipWs, if_pos hwc, skipWsAux_run wcs hwcs op hopws rest]
    simp only [if_pos hop]

/-- A pass of the parse_expr loop across the final literal, optional
whitespace, and the end-of-expression newline: the operand is stored and the
end status 'n' is returned without advancing the cursor. -/
theorem parse_expr_step_end (w : WState) (hw : w.window_at < 3) (L : Lit)
    (hL : L.WF) (ws : List Char) (hws : wsOnly ws) (rest : List Char) :
    parse_expr w (L.render ++ (ws ++ '\n' :: rest)) =
      ('n', w.setOpnd w.window_at L.val, rest) := by
  have hnws : ¬('\n' = ' ' ∨ '\n' = '\t') := by decide
  obtain ⟨k, hk⟩ : ∃ k, 3 - w.window_at = k + 1 := ⟨3 - w.window_at - 1, by omega⟩
  cases ws with
  | nil =>
    simp only [parse_expr, hk, List.nil_append, parse_expr_go]
    rw [lexOperand_lit L hL '\n' (by decide) (by decide) rest]
    simp [skipWs]
  | cons wc wcs =>
    have hwc : wc = ' ' ∨ wc = '\t' := hws wc (by simp)
    have hwcs : wsOnly wcs := fun x hx => hws x (by simp [hx])
    have hwc1 : isDigitC wc = false := by rcases hwc with rfl | rfl <;> decide
    have hwc2 : wc ≠ '.' := by rcases hwc with rfl | rfl <;> decide
    have hwcns : wc ≠ 's' := by rcases hwc with rfl | rfl <;> decide
    simp only [parse_expr, hk, List.cons_append, parse_expr_go]
    rw [lexOperand_lit L hL wc hwc1 hwc2 (wcs ++ '\n' :: rest)]
    simp only [if_neg hwcns]
    rw [skipWs, if_pos hwc, skipWsAux_run wcs hwcs '\n' hnws rest]
    simp

/-- parse_expr_step_op with no whitespace. -/
theorem parse_expr_step_op0 (w : WState) (hw : w.window_at < 3) (L : Lit)
    (hL : L.WF) (op : Char)
    (hop : op = '^' ∨ op = '+' ∨ op = '-' ∨ op = '*' ∨ op = '/')
    (rest : List Char) :
    parse_expr w (L.render ++ op :: rest) =
      parse_expr (((w.setOpnd w.window_at L.val).setOptr w.window_at op).incAt)
        rest := by
  have h := parse_expr_step_op w hw L hL [] (by intro c hc; cases hc) op hop rest
  simpa using h

/-- parse_expr_step_end with no whitespace. -/
theorem parse_expr_step_end0 (w : WState) (hw : w.window_at < 3) (L : Lit)
    (hL : L.WF) (rest : List Char) :
    parse_expr w (L.render ++ '\n' :: rest) =
      ('n', w.setOpnd w.window_at L.val, rest) := by
  have h := parse_expr_step_end w hw L hL [] (by intro c hc; cases hc) rest
  simpa using h

/-- A pass of the parse_expr loop across a literal directly followed by an
opening parenthesis: the operand is stored, the parenthesis marker is stored
in the operator slot, and the open status 'o' is returned without advancing
the cursor (parse-math-expr.c:125-127). -/
theorem parse_expr_step_open (w : WState) (hw : w.window_at < 3) (L : Lit)
    (hL : L.WF) (ws : List Char) (hws : wsOnly ws) (rest : List Char) :
    parse_expr w (L.render ++ (ws ++ '(' :: rest)) =
      ('o', (w.setOpnd w.window_at L.val).setOptr w.window_at '(', rest) := by
  have hpws : ¬('(' = ' ' ∨ '(' = '\t') := by decide
  obtain ⟨k, hk⟩ : ∃ k, 3 - w.window_at = k + 1 := ⟨3 - w.window_at - 1, by omega⟩
  cases ws with
  | nil =>
    simp only [parse_expr, hk, List.nil_append, parse_expr_go]
    rw [lexOperand_lit L hL '(' (by decide) (by decide) rest]
    simp [skipWs]
  | cons wc wcs =>
    have hwc : wc = ' ' ∨ wc = '\t' := hws wc (by simp)
    have hwcs : wsOnly wcs := fun x hx => hws x (by simp [hx])
    have hwc1 : isDigitC wc = false := by rcases hwc with rfl | rfl <;> decide
    have hwc2 : wc ≠ '.' := by rcases hwc with rfl | rfl <;> decide
    have hwcns : wc ≠ 's' := by rcases hwc with rfl | rfl <;> decide
    simp only [parse_expr, hk, List.cons_append, parse_expr_go]
    rw [lexOperand_lit L hL wc hwc1 hwc2 (wcs ++ '(' :: rest)]
    simp only [if_neg hwcns]
    rw [skipWs, if_pos hwc, skipWsAux_run wcs hwcs '(' hpws rest]
    simp

/-- parse_expr_step_open with no whitespace. -/
theorem parse_expr_step_open0 (w : WState) (hw : w.window_at < 3) (L : Lit)
    (hL : L.WF) (rest : List Char) :
    parse_expr w (L.render ++ '(' :: rest) =
      ('o', (w.setOpnd w.window_at L.val).setOptr w.window_at '(', rest) := by
  have h := parse_expr_step_open w hw L hL [] (by intro c hc; cases hc) rest
  simpa using h

/-- One unfolding of the do-while loop of calculate at positive fuel. -/
theorem calcLoop_succ (n : ℕ) (w : WState) (input : List Char) :
    calcLoop (n + 1) w input =
      match parse_expr w input with
      | (st, w1, in1) =>
        if st = '>' then calcLoop n (compute w1) in1
        else if st = 'n' ∨ st = 'c' then ((compute w1).o0, st, in1)
        else if st = 'o' then
          match
            (if contains_nest_op w1 then
              let w2 := w1.setOptr w1.window_at '*'
              if w1.window_at < 2 then
                match calcLoop n initW in1 with
                | (v, st2, in2) => (w2.setOpnd (w1.window_at + 1) v, st2, in2)
              else
                let w3 := compute w2
                match calcLoop n initW in1 with
                | (v, st2, in2) => (w3.setOpnd w3.window_at v, st2, in2)
            else
              match calcLoop n initW in1 with
              | (v, st2, in2) => (w1.setOpnd w1.window_at v, st2, in2)) with
          | (w4, st2, in2) =>
            let w5 := compute w4
            if st2 = '\n' then (w5.o0, st2, in2)
            else if st2 = 's' then (w5.o0, 's', in2)
            else calcLoop n w5 in2
        else (w1.o0, st, in1) := rfl

theorem sgnFactor_none (i : List ℕ) (h : Bool) (f : List ℕ) :
    Lit.sgnFactor ⟨none, i, h, f⟩ = 1 := rfl

theorem sgnFactor_plus (i : List ℕ) (h : Bool) (f : List ℕ) :
    Lit.sgnFactor ⟨some false, i, h, f⟩ = 1 := rfl

theorem sgnFactor_minus (i : List ℕ) (h : Bool) (f : List ℕ) :
    Lit.sgnFactor ⟨some true, i, h, f⟩ = -1 := rfl

theorem initW_o0 : initW.o0 = 0 := rfl

theorem initW_o1 : initW.o1 = 0 := rfl

theorem initW_o2 : initW.o2 = 0 := rfl

theorem initW_p0 : initW.p0 = '+' := rfl

theorem initW_p1 : initW.p1 = '+' := rfl

theorem initW_p2 : initW.p2 = '+' := rfl

theorem initW_window_at : initW.window_at = 0 := rfl

/-- Division by zero is not flagged by the parser or the evaluator: the run
of 1/0 ends with the end status 'n', not with the syntax error status 's'.
The numeric payload of the C run is the IEEE-754 infinity, which the exact
rational idealization cannot express; here division by zero is the rational
convention 1/0 = 0. -/
theorem div_by_zero_keeps_end_status :
    calculate 1 ['1', '/', '0', '\n'] = (0, 'n', []) ∧ 'n' ≠ 's' := by
  refine ⟨?_, by decide⟩
  simp [calculate, calcLoop, parse_expr, parse_expr_go, lexOperand, getchar,
    parse_operand, finishOperand, parse_digits, skipWs, skipWsAux, isDigitC,
    digitVal, WState.setOpnd, WState.setOptr, WState.incAt, initW, compute,
    highest_order_op, arithmetic_op, shift_window, contains_nest_op,
    WState.optr, qpow]

/-- Claim C1.  Operator precedence between classes is honored on the
lexable (whitespace-free) renderings: for all operand literals a, b, c,
evaluating a+b*c yields a + (b*c) and a*b+c yields (a*b) + c, with the end
status and the stream consumed.  The concrete input of the claim,
1 + 2 * 3 newline, does NOT return 7: the evaluator rejects the whitespace
standing directly before an operand, returning value 1 with the syntax
error status 's' and the tail of the stream unread (first conjunct). -/
theorem c1_precedence :
    calculate 1 ['1', ' ', '+', ' ', '2', ' ', '*', ' ', '3', '\n'] =
      (1, 's', [' ', '*', ' ', '3', '\n']) ∧
    (∀ A B C : Lit, A.WF → B.WF → C.WF →
      calculate 1 (A.render ++ '+' :: (B.render ++ '*' :: (C.render ++ ['\n']))) =
        (A.val + B.val * C.val, 'n', [])) ∧
    (∀ A B C : Lit, A.WF → B.WF → C.WF →
      calculate 1 (A.render ++ '*' :: (B.render ++ '+' :: (C.render ++ ['\n']))) =
        (A.val * B.val + C.val, 'n', [])) := by
  refine ⟨?_, ?_, ?_⟩
  · simp [calculate, calcLoop, parse_expr, parse_expr_go, lexOperand, getchar,
      parse_operand, finishOperand, parse_digits, skipWs, skipWsAux, isDigitC,
      digitVal, WState.setOpnd, WState.setOptr, WState.incAt, initW, compute,
      highest_order_op, arithmetic_op, shift_window, contains_nest_op,
      WState.optr, qpow]
  · intro A B C hA hB hC
    show calcLoop (0 + 1) initW
      (A.render ++ '+' :: (B.render ++ '*' :: (C.render ++ '\n' :: []))) = _
    rw [calcLoop_succ, parse_expr_step_op0 initW (by decide) A hA '+' (by decide),
      parse_expr_step_op0 _
        (by simp [WState.incAt, window_at_setOptr, window_at_setOpnd, initW_window_at])
        B hB '*' (by decide),
      parse_expr_step_end0 _
        (by simp [WState.incAt, window_at_setOptr, window_at_setOpnd, initW_window_at])
        C hC []]
    simp [initW, WState.setOpnd, WState.setOptr, WState.incAt, compute,
      highest_order_op, arithmetic_op, shift_window, WState.optr]
  · intro A B C hA hB hC
    show calcLoop (0 + 1) initW
      (A.render ++ '*' :: (B.render ++ '+' :: (C.render ++ '\n' :: []))) = _
    rw [calcLoop_succ, parse_expr_step_op0 initW (by decide) A hA '*' (by decide),
      parse_expr_step_op0 _
        (by simp [WState.incAt, window_at_setOptr, window_at_setOpnd, initW_window_at])
        B hB '+' (by decide),
      parse_expr_step_end0 _
        (by simp [WState.incAt, window_at_setOptr, window_at_setOpnd, initW_window_at])
        C hC []]
    simp [initW, WState.setOpnd, WState.setOptr, WState.incAt, compute,
      highest_order_op, arithmetic_op, shift_window, WState.optr]

/-- Claim C1, witness: the precedence conjunct applied to the literals 1, 2
and 3 gives the whitespace-free run 1+2*3 with result 7 and end status. -/
theorem c1_precedence_witness :
    calculate 1 ['1', '+', '2', '*', '3', '\n'] = (7, 'n', []) := by
  have h := c1_precedence.2.1 ⟨none, [1], false, []⟩ ⟨none, [2], false, []⟩
    ⟨none, [3], false, []⟩
    ⟨by decide, by decide, fun _ => rfl, Or.inl (by decide)⟩
    ⟨by decide, by decide, fun _ => rfl, Or.inl (by decide)⟩
    ⟨by decide, by decide, fun _ => rfl, Or.inl (by decide)⟩
  norm_num [Lit.render, Lit.val, sgnFactor_none, sgnFactor_plus,
    sgnFactor_minus, intVal, fracFold, Nat.digitChar] at h
  exact h

/-- Claim C2.  Within the additive and the multiplicative class, evaluation
is left to right: a-b-c gives (a-b)-c and a/b/c gives (a/b)/c for all
operand literals (first two conjuncts).  The power operator is the
exception: with two of them in the window the evaluator reduces the right
one first, so the whitespace-free 2^3^2 yields 2^(3^2) = 512 and not
(2^3)^2 = 64 (third conjunct). -/
theorem c2_left_to_right :
    (∀ A B C : Lit, A.WF → B.WF → C.WF →
      calculate 1 (A.render ++ '-' :: (B.render ++ '-' :: (C.render ++ ['\n']))) =
        (A.val - B.val - C.val, 'n', [])) ∧
    (∀ A B C : Lit, A.WF → B.WF → C.WF →
      calculate 1 (A.render ++ '/' :: (B.render ++ '/' :: (C.render ++ ['\n']))) =
        (A.val / B.val / C.val, 'n', [])) ∧
    calculate 1 ['2', '^', '3', '^', '2', '\n'] = (512, 'n', []) := by
  refine ⟨?_, ?_, ?_⟩
  · intro A B C hA hB hC
    show calcLoop (0 + 1) initW
      (A.render ++ '-' :: (B.render ++ '-' :: (C.render ++ '\n' :: []))) = _
    rw [calcLoop_succ, parse_expr_step_op0 initW (by decide) A hA '-' (by decide),
      parse_expr_step_op0 _
        (by simp [WState.incAt, window_at_setOptr, window_at_setOpnd, initW_window_at])
        B hB '-' (by decide),
      parse_expr_step_end0 _
        (by simp [WState.incAt, window_at_setOptr, window_at_setOpnd, initW_window_at])
        C hC []]
    simp [initW, WState.setOpnd, WState.setOptr, WState.incAt, compute,
      highest_order_op, arithmetic_op, shift_window, WState.optr]
  · intro A B C hA hB hC
    show calcLoop (0 + 1) initW
      (A.render ++ '/' :: (B.render ++ '/' :: (C.render ++ '\n' :: []))) = _
    rw [calcLoop_succ, parse_expr_step_op0 initW (by decide) A hA '/' (by decide),
      parse_expr_step_op0 _
        (by simp [WState.incAt, window_at_setOptr, window_at_setOpnd, initW_window_at])
        B hB '/' (by decide),
      parse_expr_step_end0 _
        (by simp [WState.incAt, window_at_setOptr, window_at_setOpnd, initW_window_at])
        C hC []]
    simp [initW, WState.setOpnd, WState.setOptr, WState.incAt, compute,
      highest_order_op, arithmetic_op, shift_window, WState.optr]
  · simp [calculate, calcLoop, parse_expr, parse_expr_go, lexOperand, getchar,
      parse_operand, finishOperand, parse_digits, skipWs, skipWsAux, isDigitC,
      digitVal, WState.setOpnd, WState.setOptr, WState.incAt, initW, compute,
      highest_order_op, arithmetic_op, shift_window, contains_nest_op,
      WState.optr, qpow]
    try norm_num

/-- Claim C2, counterexample to the claim as stated: the exact claimed input
2 ^ 3 ^ 2 newline does not return 64 but stops with the syntax error status
at the whitespace before the operand 3, and even the whitespace-free
rendering 2^3^2 returns 512, not 64. -/
theorem c2_left_to_right_counterexample :
    calculate 1 ['2', ' ', '^', ' ', '3', ' ', '^', ' ', '2', '\n'] =
      (2, 's', [' ', '^', ' ', '2', '\n']) ∧
    calculate 1 ['2', '^', '3', '^', '2', '\n'] = (512, 'n', []) ∧
    (512 : ℚ) ≠ 64 := by
  refine ⟨?_, ?_, by norm_num⟩
  · simp [calculate, calcLoop, parse_expr, parse_expr_go, lexOperand, getchar,
      parse_operand, finishOperand, parse_digits, skipWs, skipWsAux, isDigitC,
      digitVal, WState.setOpnd, WState.setOptr, WState.incAt, initW, compute,
      highest_order_op, arithmetic_op, shift_window, contains_nest_op,
      WState.optr, qpow]
  · simp [calculate, calcLoop, parse_expr, parse_expr_go, lexOperand, getchar,
      parse_operand, finishOperand, parse_digits, skipWs, skipWsAux, isDigitC,
      digitVal, WState.setOpnd, WState.setOptr, WState.incAt, initW, compute,
      highest_order_op, arithmetic_op, shift_window, contains_nest_op,
      WState.optr, qpow]
    try norm_num

/-- Claim C2, witness: the subtraction conjunct applied to the literals 10,
4 and 3 gives the run 10-4-3 with the left-to-right result 3. -/
theorem c2_left_to_right_witness :
    calculate 1 ['1', '0', '-', '4', '-', '3', '\n'] = (3, 'n', []) := by
  have h := c2_left_to_right.1 ⟨none, [1, 0], false, []⟩ ⟨none, [4], false, []⟩
    ⟨none, [3], false, []⟩
    ⟨by decide, by decide, fun _ => rfl, Or.inl (by decide)⟩
    ⟨by decide, by decide, fun _ => rfl, Or.inl (by decide)⟩
    ⟨by decide, by decide, fun _ => rfl, Or.inl (by decide)⟩
  norm_num [Lit.render, Lit.val, sgnFactor_none, sgnFactor_plus,
    sgnFactor_minus, intVal, fracFold, Nat.digitChar] at h
  exact h

/-- Claim C3.  The claimed transparency of a parenthesized sub-expression
fails on the code: evaluating the claimed input (1+2)*3 newline returns the
value 3 with the syntax error status 's', leaving the tail 3 newline
unread, instead of the claimed 9 with success.  After the parenthesized
value is collapsed, the parser again expects an operand, and parse_operand
classifies the following star as a pair of consecutive operators. -/
theorem c3_paren_transparency_fails :
    calculate 2 ['(', '1', '+', '2', ')', '*', '3', '\n'] =
      (3, 's', ['3', '\n']) ∧
    ((3 : ℚ), 's') ≠ ((9 : ℚ), 'n') := by
  refine ⟨?_, by norm_num⟩
  simp [calculate, calcLoop, parse_expr, parse_expr_go, lexOperand, getchar,
    parse_operand, finishOperand, parse_digits, skipWs, skipWsAux, isDigitC,
    digitVal, WState.setOpnd, WState.setOptr, WState.incAt, initW, compute,
    highest_order_op, arithmetic_op, shift_window, contains_nest_op,
    WState.optr, qpow]
  norm_num

/-- Claim C4.  The claimed insertion-invariance of whitespace fails on the
code: inserting one space into the well-formed 1+2 newline directly before
the operand 2 turns the successful run (value 3, end status) into a syntax
error run (value 1, status 's'), because parse_operand returns the space as
a terminating character and the operator dispatch rejects the digit that
follows (first two conjuncts).  Whitespace is transparent only in the single
position where parse_expr discards it, between the end of an operand and the
following operator; there the run is unchanged (third conjunct). -/
theorem c4_whitespace_insertion :
    calculate 1 ['1', '+', '2', '\n'] = (3, 'n', []) ∧
    calculate 1 ['1', '+', ' ', '2', '\n'] = (1, 's', ['\n']) ∧
    (∀ A B : Lit, A.WF → B.WF →
      ∀ op : Char, (op = '^' ∨ op = '+' ∨ op = '-' ∨ op = '*' ∨ op = '/') →
      ∀ ws1 ws2 : List Char, wsOnly ws1 → wsOnly ws2 →
      calculate 1 (A.render ++ (ws1 ++ op :: (B.render ++ (ws2 ++ ['\n'])))) =
        calculate 1 (A.render ++ op :: (B.render ++ ['\n']))) := by
  refine ⟨?_, ?_, ?_⟩
  · simp [calculate, calcLoop, parse_expr, parse_expr_go, lexOperand, getchar,
      parse_operand, finishOperand, parse_digits, skipWs, skipWsAux, isDigitC,
      digitVal, WState.setOpnd, WState.setOptr, WState.incAt, initW, compute,
      highest_order_op, arithmetic_op, shift_window, contains_nest_op,
      WState.optr, qpow]
    try norm_num
  · simp [calculate, calcLoop, parse_expr, parse_expr_go, lexOperand, getchar,
      parse_operand, finishOperand, parse_digits, skipWs, skipWsAux, isDigitC,
      digitVal, WState.setOpnd, WState.setOptr, WState.incAt, initW, compute,
      highest_order_op, arithmetic_op, shift_window, contains_nest_op,
      WState.optr, qpow]
  · intro A B hA hB op hop ws1 ws2 h1 h2
    show calcLoop (0 + 1) initW
        (A.render ++ (ws1 ++ op :: (B.render ++ (ws2 ++ '\n' :: [])))) =
      calcLoop (0 + 1) initW (A.render ++ op :: (B.render ++ '\n' :: []))
    rw [calcLoop_succ, calcLoop_succ,
      parse_expr_step_op initW (by decide) A hA ws1 h1 op hop,
      parse_expr_step_end _
        (by simp [WState.incAt, window_at_setOptr, window_at_setOpnd, initW_window_at])
        B hB ws2 h2 [],
      parse_expr_step_op0 initW (by decide) A hA op hop,
      parse_expr_step_end0 _
        (by simp [WState.incAt, window_at_setOptr, window_at_setOpnd, initW_window_at])
        B hB []]

/-- Claim C4, witness: the insertion-position conjunct applied to the
literals 1 and 2 with one space between the operand 1 and the operator. -/
theorem c4_whitespace_insertion_witness :
    calculate 1 ['1', ' ', '+', '2', '\n'] = calculate 1 ['1', '+', '2', '\n'] := by
  have h := c4_whitespace_insertion.2.2 ⟨none, [1], false, []⟩
    ⟨none, [2], false, []⟩
    ⟨by decide, by decide, fun _ => rfl, Or.inl (by decide)⟩
    ⟨by decide, by decide, fun _ => rfl, Or.inl (by decide)⟩
    '+' (by decide) [' '] []
    (by intro c hc; simp at hc; subst hc; exact Or.inl rfl)
    (by intro c hc; cases hc)
  simpa [Lit.render, Nat.digitChar] using h

/-- Claim C5.  Implicit multiplication through an opening parenthesis: for
every operand literal a and every well-formed sub-expression E evaluating to
v, the run of a(E) followed by newline yields a times v with the end status
and the stream consumed.  Fuel n bounds the loop passes of the nested run
as in EvalsTo. -/
theorem c5_implicit_mult (n : ℕ) (hn : 1 ≤ n) (A : Lit) (hA : A.WF)
    (E : List Char) (v : ℚ) (hE : EvalsTo n E v) :
    calculate (n + 1) (A.render ++ '(' :: (E ++ [')', '\n'])) =
      (A.val * v, 'n', []) := by
  obtain ⟨m, rfl⟩ : ∃ m, n = m + 1 := ⟨n - 1, by omega⟩
  have h2 := hE ['\n']
  simp only [calculate] at h2
  show calcLoop (m + 1 + 1) initW (A.render ++ '(' :: (E ++ ')' :: '\n' :: [])) = _
  rw [calcLoop_succ,
    parse_expr_step_open0 initW (by decide) A hA (E ++ ')' :: '\n' :: [])]
  simp only [WState.setOpnd, WState.setOptr, WState.incAt, contains_nest_op,
    initW_o0, initW_o1, initW_o2, initW_p0, initW_p1, initW_p2,
    initW_window_at, reduceIte, reduceCtorEq]
  rw [h2]
  simp [WState.setOpnd, WState.setOptr, WState.incAt, contains_nest_op,
    initW_o0, initW_o1, initW_o2, initW_p0, initW_p1, initW_p2,
    initW_window_at, compute, highest_order_op, arithmetic_op, shift_window,
    WState.optr]
  rw [calcLoop_succ]
  simp [parse_expr, parse_expr_go, lexOperand, getchar, parse_operand, skipWs,
    compute, highest_order_op, arithmetic_op, shift_window, WState.optr,
    WState.setOpnd, isDigitC, digitVal, initW_o0, initW_o1, initW_o2,
    initW_p0, initW_p1, initW_p2, initW_window_at]

/-- Claim C5, witness: the literal 3 against the sub-expression 4+1 gives
the run 3(4+1) with result 15. -/
theorem c5_implicit_mult_witness :
    calculate 2 ['3', '(', '4', '+', '1', ')', '\n'] = (15, 'n', []) := by
  have h := c5_implicit_mult 1 (le_refl 1) ⟨none, [3], false, []⟩
    ⟨by decide, by decide, fun _ => rfl, Or.inl (by decide)⟩
    ['4', '+', '1'] 5
    (by
      intro tail
      simp [calculate, calcLoop, parse_expr, parse_expr_go, lexOperand,
        getchar, parse_operand, finishOperand, parse_digits, skipWs,
        skipWsAux, isDigitC, digitVal, WState.setOpnd, WState.setOptr,
        WState.incAt, initW, compute, highest_order_op, arithmetic_op,
        shift_window, contains_nest_op, WState.optr, qpow]
      try norm_num)
  norm_num [Lit.render, Lit.val, sgnFactor_none, intVal, fracFold,
    Nat.digitChar] at h
  exact h

/-- Claim C6.  Evaluating a lone operand literal yields its decimal value
exactly (the exact rational value; the C double rounds it to the nearest
double), with the end status and the stream consumed; and the boundary
cases of the claim hold: .5 gives one half, -.5 gives minus one half,
+3 gives 3, and the empty expression gives 0. -/
theorem c6_operand_literal :
    (∀ L : Lit, L.WF → calculate 1 (L.render ++ ['\n']) = (L.val, 'n', [])) ∧
    calculate 1 ['.', '5', '\n'] = (1 / 2, 'n', []) ∧
    calculate 1 ['-', '.', '5', '\n'] = (-(1 / 2), 'n', []) ∧
    calculate 1 ['+', '3', '\n'] = (3, 'n', []) ∧
    calculate 1 ['\n'] = (0, 'n', []) := by
  refine ⟨?_, ?_, ?_, ?_, ?_⟩
  · intro L hL
    show calcLoop (0 + 1) initW (L.render ++ '\n' :: []) = (L.val, 'n', [])
    rw [calcLoop_succ, parse_expr_step_end0 initW (by decide) L hL []]
    simp [initW, WState.setOpnd, compute, highest_order_op, arithmetic_op,
      shift_window, WState.optr]
  · simp [calculate, calcLoop, parse_expr, parse_expr_go, lexOperand, getchar,
      parse_operand, finishOperand, parse_digits, skipWs, skipWsAux, isDigitC,
      digitVal, WState.setOpnd, WState.setOptr, WState.incAt, initW, compute,
      highest_order_op, arithmetic_op, shift_window, contains_nest_op,
      WState.optr, qpow]
    try norm_num
  · simp [calculate, calcLoop, parse_expr, parse_expr_go, lexOperand, getchar,
      parse_operand, finishOperand, parse_digits, skipWs, skipWsAux, isDigitC,
      digitVal, WState.setOpnd, WState.setOptr, WState.incAt, initW, compute,
      highest_order_op, arithmetic_op, shift_window, contains_nest_op,
      WState.optr, qpow]
    try norm_num
  · simp [calculate, calcLoop, parse_expr, parse_expr_go, lexOperand, getchar,
      parse_operand, finishOperand, parse_digits, skipWs, skipWsAux, isDigitC,
      digitVal, WState.setOpnd, WState.setOptr, WState.incAt, initW, compute,
      highest_order_op, arithmetic_op, shift_window, contains_nest_op,
      WState.optr, qpow]
    try norm_num
  · simp [calculate, calcLoop, parse_expr, parse_expr_go, lexOperand, getchar,
      parse_operand, finishOperand, parse_digits, skipWs, skipWsAux, isDigitC,
      digitVal, WState.setOpnd, WState.setOptr, WState.incAt, initW, compute,
      highest_order_op, arithmetic_op, shift_window, contains_nest_op,
      WState.optr, qpow]

/-- Claim C6, witness: the literal conjunct applied to the two-digit
literal 42. -/
theorem c6_operand_literal_witness :
    calculate 1 ['4', '2', '\n'] = (42, 'n', []) := by
  have h := c6_operand_literal.1 ⟨none, [4, 2], false, []⟩
    ⟨by decide, by decide, fun _ => rfl, Or.inl (by decide)⟩
  norm_num [Lit.render, Lit.val, sgnFactor_none, intVal, fracFold,
    Nat.digitChar] at h
  exact h

/-- Claim C7.  Each of the three malformations ends the run with the syntax
error status 's' and the evaluator returns at once, leaving the rest of the
stream unread: the claimed input 3 + * 4 newline (which errs at the space
before the digit 4, after the pair of operators was accepted thanks to the
whitespace in between), the genuinely consecutive operators of 3+*4
newline, the double dot of 1.2.3 newline, and the foreign character of
3 @ 4 newline. -/
theorem c7_syntax_errors :
    calculate 1 ['3', ' ', '+', ' ', '*', ' ', '4', '\n'] = (3, 's', ['\n']) ∧
    calculate 1 ['3', '+', '*', '4', '\n'] = (3, 's', ['4', '\n']) ∧
    calculate 1 ['1', '.', '2', '.', '3', '\n'] = (6 / 5, 's', ['3', '\n']) ∧
    calculate 1 ['3', ' ', '@', ' ', '4', '\n'] = (3, 's', [' ', '4', '\n']) := by
  refine ⟨?_, ?_, ?_, ?_⟩ <;>
    · simp [calculate, calcLoop, parse_expr, parse_expr_go, lexOperand,
        getchar, parse_operand, finishOperand, parse_digits, skipWs,
        skipWsAux, isDigitC, digitVal, WState.setOpnd, WState.setOptr,
        WState.incAt, initW, compute, highest_order_op, arithmetic_op,
        shift_window, contains_nest_op, WState.optr, qpow]
      try norm_num

/-- Claim C9.  The claimed early return after a nested sub-expression ends
on the end status fails on the code: the test at compute-math-expr.c:60
compares the status with the newline character although the end status is
the letter 'n', so it never fires, and the outer evaluator keeps consuming
input.  On ( 1+2 newline followed by +9 newline the run consumes the second
line too and returns 12; on ( 1+2 newline alone it runs into the end of the
stream and surfaces a syntax error with value 3. -/
theorem c9_nested_end_not_returned :
    calculate 2 ['(', '1', '+', '2', '\n', '+', '9', '\n'] = (12, 'n', []) ∧
    calculate 2 ['(', '1', '+', '2', '\n'] = (3, 's', []) := by
  refine ⟨?_, ?_⟩ <;>
    · simp [calculate, calcLoop, parse_expr, parse_expr_go, lexOperand,
        getchar, parse_operand, finishOperand, parse_digits, skipWs,
        skipWsAux, isDigitC, digitVal, WState.setOpnd, WState.setOptr,
        WState.incAt, initW, compute, highest_order_op, arithmetic_op,
        shift_window, contains_nest_op, WState.optr, qpow]
      try norm_num

/-- Claim C10.  After every collapse with a live trailing operator,
whatever shift mode was taken, the trailing window slot is back at its
defaults, operands two 0 and operators two '+', and the cursor is 1 or 2,
so a free operand slot faces the next lex step. -/
theorem c10_window_reset (w : WState)
    (h : w.p2 = '+' ∨ w.p2 = '-' ∨ w.p2 = '*' ∨ w.p2 = '/' ∨ w.p2 = '^') :
    (compute w).o2 = 0 ∧ (compute w).p2 = '+' ∧
      ((compute w).window_at = 1 ∨ (compute w).window_at = 2) := by
  have hp : highest_order_op w = 0 ∨ highest_order_op w = 1 := by
    unfold highest_order_op; split_ifs <;> simp
  rcases h with h | h | h | h | h <;>
    simp only [compute, h] <;> split_ifs <;> simp_all [shift_window]

/-- Claim C10, witness: the invariant at a concrete full window with a
trailing plus. -/
theorem c10_window_reset_witness :
    (compute ⟨1, 2, 3, '+', '+', '+', 2⟩).o2 = 0 ∧
    (compute ⟨1, 2, 3, '+', '+', '+', 2⟩).p2 = '+' ∧
    ((compute ⟨1, 2, 3, '+', '+', '+', 2⟩).window_at = 1 ∨
      (compute ⟨1, 2, 3, '+', '+', '+', 2⟩).window_at = 2) :=
  c10_window_reset ⟨1, 2, 3, '+', '+', '+', 2⟩ (Or.inl rfl)

end Cmm
